import Mathlib

/-!
Verification of `mason/generate.py` (the template command of the `buildr`
repository) against its natural-language specification.

The Python module is shallowly embedded below.  Filesystem state is a list of
`(path, entry)` pairs (most recent entry first), and every library side effect
the module performs (`urlretrieve`, `archive.extract`, `os.path.expanduser`,
`mimetypes.guess_extension`, ...) is supplied through an explicit environment
record, so that every function of the module becomes a pure, executable Lean
function on that state.
-/

namespace Mason

/-- Filesystem paths are plain strings, as in the Python source. -/
abbrev Path := String

/-- `s.startswith(pre)`, computed on character lists so that terms reduce. -/
def strStartsWith (s pre : String) : Bool :=
  pre.toList.isPrefixOf s.toList

/-- `s.endswith(suf)`, computed on character lists so that terms reduce. -/
def strEndsWith (s suf : String) : Bool :=
  suf.toList.isSuffixOf s.toList

/-- Python `s.split(c)` for a one-character separator, on character lists. -/
def splitOnCharL (c : Char) (l : List Char) : List (List Char) :=
  l.foldr
    (fun ch acc =>
      if ch = c then [] :: acc
      else
        match acc with
        | h :: t => (ch :: h) :: t
        | [] => [[ch]])
    [[]]

/-- Python `s.split(c)` for a one-character separator. -/
def splitOnChar (c : Char) (s : String) : List String :=
  (splitOnCharL c s.toList).map String.mk

/-- Python `s.strip()`. -/
def strTrim (s : String) : String :=
  String.mk
    (((s.toList.dropWhile Char.isWhitespace).reverse.dropWhile
      Char.isWhitespace).reverse)

/-- Lowercase a string character by character, as Python `str.lower` does for
the ASCII names this module manipulates. -/
def lowerStr (s : String) : String :=
  String.mk (s.toList.map Char.toLower)

/-- The suffix of `s` after its last `'/'` (Python `s.split('/')[-1]`). -/
def lastSegment (s : String) : String :=
  String.mk ((s.toList.reverse.takeWhile (fun c => c ≠ '/')).reverse)

/-- Python `s.rstrip('/')`. -/
def rstripSlash (s : String) : String :=
  String.mk ((s.toList.reverse.dropWhile (fun c => c = '/')).reverse)

/-- `os.path.join` on two components (POSIX semantics), on character lists. -/
def joinL (a b : List Char) : List Char :=
  match b with
  | '/' :: _ => b
  | _ =>
    match a with
    | [] => b
    | _ => if a.getLast? = some '/' then a ++ b else a ++ ('/' :: b)

/-- `os.path.join` on two string components. -/
def join2 (a b : String) : String :=
  String.mk (joinL a.toList b.toList)

/-- `os.path.join` on three components. -/
def join3 (a b c : String) : String :=
  join2 (join2 a b) c

/-- The supported URL schemes (`TemplateCommand.url_schemes`). -/
def url_schemes : List String := ["http", "https", "ftp"]

/-- The part of `s` before its first `':'` (Python `s.split(':', 1)[0]`). -/
def schemeOf (s : String) : String :=
  String.mk (s.toList.takeWhile (fun c => c ≠ ':'))

/-- `TemplateCommand.is_url`: true iff the name looks like a URL, i.e. it has
a `':'` and the text before the first `':'` is a supported scheme. -/
def is_url (template : String) : Bool :=
  if (template.toList.contains ':') = false then false
  else url_schemes.contains (lowerStr (schemeOf template))

/-- Index of the last occurrence of `c` in `l`, if any. -/
def lastIdx (l : List Char) (c : Char) : Option Nat :=
  match l.reverse.findIdx? (fun x => x = c) with
  | some k => some (l.length - 1 - k)
  | none => none

/-- `posixpath.splitext` on character lists: split at the final dot of the
final component, except that a run of leading dots of the component is part of
the root, not an extension. -/
def posixSplitextL (p : List Char) : List Char × List Char :=
  let sepIdx := lastIdx p '/'
  match lastIdx p '.' with
  | none => (p, [])
  | some d =>
    let start := match sepIdx with
      | some k => k + 1
      | none => 0
    let afterSep : Bool := match sepIdx with
      | some k => decide (k < d)
      | none => true
    if afterSep then
      let name := (p.drop start).take (d - start)
      if name.any (fun ch => ch ≠ '.') then (p.take d, p.drop d) else (p, [])
    else (p, [])

/-- `TemplateCommand.splitext`: like `os.path.splitext`, but takes off a
trailing `.tar` of the root into the extension, too. -/
def splitext (the_path : String) : String × String :=
  let pr := posixSplitextL the_path.toList
  let base := pr.1
  let ext := pr.2
  if ".tar".toList.isSuffixOf (base.map Char.toLower) then
    (String.mk (base.take (base.length - 4)),
     String.mk (base.drop (base.length - 4) ++ ext))
  else
    (String.mk base, String.mk ext)

/-- A filesystem entry: a directory marker or a file with its content. -/
inductive Entry : Type where
  | dir : Entry
  | file : String → Entry
deriving DecidableEq, Repr

/-- A filesystem: an association of paths to entries, most recent first. -/
structure FS : Type where
  entries : List (Path × Entry)
deriving DecidableEq, Repr

/-- First entry recorded for path `p`, if any. -/
def findEntry (fs : FS) (p : Path) : Option Entry :=
  match fs.entries.find? (fun e => e.1 = p) with
  | some e => some e.2
  | none => none

/-- `os.path.exists`. -/
def pathExists (fs : FS) (p : Path) : Bool :=
  (findEntry fs p).isSome

/-- `os.path.isdir`. -/
def isDir (fs : FS) (p : Path) : Bool :=
  findEntry fs p = some Entry.dir

/-- `os.path.isfile`. -/
def isFile (fs : FS) (p : Path) : Bool :=
  match findEntry fs p with
  | some (Entry.file _) => true
  | _ => false

/-- Record a directory at `p` (`os.mkdir` / `os.makedirs` / `mkdtemp`). -/
def addDir (fs : FS) (p : Path) : FS :=
  ⟨(p, Entry.dir) :: fs.entries⟩

/-- Record a file at `p` with content `c` (`open(p, 'wb').write(c)`). -/
def addFile (fs : FS) (p : Path) (c : String) : FS :=
  ⟨(p, Entry.file c) :: fs.entries⟩

/-- `os.remove`: deletes the file at `p`; directory entries are untouched
because `os.remove` refuses to remove a directory. -/
def removeFile (fs : FS) (p : Path) : FS :=
  ⟨fs.entries.filter (fun e => !(e.1 = p ∧ e.2 ≠ Entry.dir : Bool)) ⟩

/-- `shutil.rmtree`: deletes `p` and everything below it. -/
def rmtreeFS (fs : FS) (p : Path) : FS :=
  ⟨fs.entries.filter (fun e => !(e.1 = p : Bool) && !(strStartsWith e.1 (p ++ "/"))) ⟩

/-- Mutable state threaded through `TemplateCommand`: the filesystem, the
`paths_to_remove` list, the temp artifacts created so far (a ghost copy used
to state the recording invariant), and the counter feeding `mkdtemp`'s unique
names. -/
structure World : Type where
  fs : FS
  pathsToRemove : List Path
  temps : List Path
  counter : Nat
deriving Repr

/-- Environment of library effects the module calls into: the working
directory, Django's installation path, path expansion, the network, header
parsing, the MIME table, the archive extractor, directory listing and the
Mako rendering pass. -/
structure Env : Type where
  cwd : String
  djangoPath : String
  expanduser : String → String
  normpath : String → String
  abspath : String → String
  fetchOk : String → Bool
  fetchContent : String → String
  fetchErr : String → String
  cdHeader : String → Option String
  parseFilenameParam : String → Option String
  ctHeader : String → Option String
  guessExtension : String → Option String
  extractOk : String → Bool
  extractErr : String → String
  render : String → String

/-- Name produced by `tempfile.mkdtemp(prefix=..., suffix='_download')` for
the `n`-th temporary of a run (`mkdtemp` guarantees a fresh name; the model
uses the run counter as the unique infix). -/
def dlTmpName (app : String) (n : Nat) : Path :=
  "/tmp/django_" ++ app ++ "_template_" ++ toString n ++ "_download"

/-- Name produced by `tempfile.mkdtemp(prefix=..., suffix='_extract')`. -/
def exTmpName (app : String) (n : Nat) : Path :=
  "/tmp/django_" ++ app ++ "_template_" ++ toString n ++ "_extract"

/-- Inner helper `cleanup_url` of `TemplateCommand.download`: the filename is
the last segment of the URL with trailing slashes stripped, and the display
URL keeps a single trailing slash when the URL had one. -/
def cleanup_url (url : String) : String × String :=
  let tmp := rstripSlash url
  let filename := lastSegment tmp
  let display_url := if strEndsWith url "/" then tmp ++ "/" else url
  (filename, display_url)

/-- Filename-improvement logic of `TemplateCommand.download` (lines 227-241):
prefer a nonempty `filename` parameter of a nonempty `content-disposition`
header; then, if the resulting name has no extension (per `splitext`) and a
nonempty `content-type` header is present, append the extension guessed from
the MIME type when the table yields one. -/
def improveFilename (parse : String → Option String)
    (guessExt : String → Option String) (used_name : String)
    (cd : Option String) (ct : Option String) : String :=
  let guessed_filename :=
    match cd with
    | some cdv =>
      if cdv ≠ "" then
        match parse cdv with
        | some f => if f ≠ "" then f else used_name
        | none => used_name
      else used_name
    | none => used_name
  let ext := (splitext guessed_filename).2
  if ext = "" then
    match ct with
    | some ctv =>
      if ctv ≠ "" then
        match guessExt ctv with
        | some e => if e ≠ "" then guessed_filename ++ e else guessed_filename
        | none => guessed_filename
      else guessed_filename
    | none => guessed_filename
  else guessed_filename

/-- `TemplateCommand.download`: make a fresh download temp directory, record
it in `paths_to_remove`, fetch the URL into it, then try to improve the
stored filename from the response headers, moving the file when the improved
name differs.  Returns the path of the stored file. -/
def download (env : Env) (app : String) (w : World) (url : String) :
    World × Except String Path :=
  let tempdir := dlTmpName app w.counter
  let w :=
    { w with
      fs := addDir w.fs tempdir
      counter := w.counter + 1
      temps := w.temps ++ [tempdir]
      pathsToRemove := w.pathsToRemove ++ [tempdir] }
  let filename := (cleanup_url url).1
  if env.fetchOk url = false then
    (w, Except.error ("couldn\x27t download URL " ++ url ++ " to " ++
      filename ++ ": " ++ env.fetchErr url))
  else
    let the_path := join2 tempdir filename
    let w := { w with fs := addFile w.fs the_path (env.fetchContent url) }
    let used_name := lastSegment the_path
    let guessed_filename := improveFilename env.parseFilenameParam
      env.guessExtension used_name (env.cdHeader url) (env.ctHeader url)
    if used_name ≠ guessed_filename then
      let guessed_path := join2 tempdir guessed_filename
      let w := { w with
        fs := addFile (removeFile w.fs the_path) guessed_path
          (env.fetchContent url) }
      (w, Except.ok guessed_path)
    else
      (w, Except.ok the_path)

/-- `TemplateCommand.extract`: make a fresh extraction temp directory, record
it in `paths_to_remove`, and unpack the archive into it.  The extracted
contents are later read back through `Env.treeAt`-style listing, so only the
directory itself is materialised here. -/
def extract (env : Env) (app : String) (w : World) (filename : Path) :
    World × Except String Path :=
  let tempdir := exTmpName app w.counter
  let w :=
    { w with
      fs := addDir w.fs tempdir
      counter := w.counter + 1
      temps := w.temps ++ [tempdir]
      pathsToRemove := w.pathsToRemove ++ [tempdir] }
  if env.extractOk filename then
    (w, Except.ok tempdir)
  else
    (w, Except.error ("couldn\x27t extract file " ++ filename ++ " to " ++
      tempdir ++ ": " ++ env.extractErr filename))

/-- Line 182-183 of `handle_template`: strip a leading `file://` from the
reference (note that the stripped string is what all later steps, including
the final error message, see). -/
def stripFileScheme (tpl0 : String) : String :=
  if strStartsWith tpl0 "file://" then String.mk (tpl0.toList.drop 7) else tpl0

/-- `TemplateCommand.handle_template`: resolve the template reference to an
on-disk directory.  `none` yields the built-in skeleton under Django's
installation; otherwise a `file://` prefix is stripped, the path is expanded
and normalised, an existing directory is returned as-is, and anything else is
downloaded (for URL schemes) and/or extracted; when nothing applies, fail. -/
def handle_template (env : Env) (app : String) (w : World)
    (template : Option String) (subdir : String) : World × Except String Path :=
  match template with
  | none => (w, Except.ok (join2 (join2 env.djangoPath "conf") subdir))
  | some tpl0 =>
    let tpl := stripFileScheme tpl0
    let expanded_template := env.normpath (env.expanduser tpl)
    if isDir w.fs expanded_template then
      (w, Except.ok expanded_template)
    else
      let step :=
        if is_url tpl then download env app w tpl
        else (w, Except.ok (env.abspath expanded_template))
      match step with
      | (w1, Except.error e) => (w1, Except.error e)
      | (w1, Except.ok absolute_path) =>
        if pathExists w1.fs absolute_path then
          extract env app w1 absolute_path
        else
          (w1, Except.error ("couldn\x27t handle " ++ app ++ " template " ++
            tpl ++ "."))

mutual

/-- A template directory tree as enumerated by `os.walk`: the subdirectories
and the regular files (with contents) of one directory. -/
inductive FTree : Type where
  | mk : DirList → List (String × String) → FTree

/-- The named subdirectories of a directory. -/
inductive DirList : Type where
  | nil : DirList
  | cons : String → FTree → DirList → DirList

end

/-- Condition under which `TemplateCommand.handle` prunes a subdirectory from
the walk (line 125). -/
def pruneName (dirname : String) : Bool :=
  strStartsWith dirname "." || dirname == "__pycache__"

/-- Condition under which `TemplateCommand.handle` skips a file (line 129). -/
def skipFile (filename : String) : Bool :=
  strEndsWith filename ".pyo" || strEndsWith filename ".pyc" ||
    strEndsWith filename ".py.class"

/-- Relative directory of a child reached from `relDir` through `name`, as
`os.walk` computes it via `root[len(template_dir) + 1:]`. -/
def childRel (relDir name : String) : String :=
  if relDir = "" then name else relDir ++ "/" ++ name

/-- Modelled from the imported `handle_extensions` helper (it lives in
Django, not in this repository): split comma-separated extension lists and
prepend a dot when missing. -/
def handle_extensions (extensions : List String) : List String :=
  ((extensions.map (fun s =>
    splitOnChar ',' (String.mk (s.toList.filter (fun c => c ≠ ' ')))))).flatten.map
    (fun e => if strStartsWith e "." then e else "." ++ e)

/-- Per-walk parameters of `TemplateCommand.handle`: the target directory,
the extension and filename filters selecting which files are rendered, and
the Mako rendering pass (an oracle, out of scope of the spec). -/
structure RenderParams : Type where
  topDir : String
  extensions : List String
  extraFiles : List String
  render : String → String

/-- The render-file test of line 144: `filename.endswith(extensions) or
filename in extra_files`. -/
def shouldRender (P : RenderParams) (filename : String) : Bool :=
  P.extensions.any (fun e => strEndsWith filename e) ||
    P.extraFiles.contains filename

/-- Line 121-122: create the target directory for the current walk root when
it does not exist yet. -/
def mkdirIfAbsent (fs : FS) (p : Path) : FS :=
  if pathExists fs p then fs else addDir fs p

/-- The inner file loop of `TemplateCommand.handle` (lines 128-150): skip
ignored files, abort when the destination already exists, otherwise render or
copy the content to the destination. -/
def renderFiles (P : RenderParams) (fs : FS) (relDir : String) :
    List (String × String) → FS × Option String
  | [] => (fs, none)
  | (filename, content) :: rest =>
    if skipFile filename then renderFiles P fs relDir rest
    else
      let new_path := join3 P.topDir relDir filename
      if pathExists fs new_path then
        (fs, some (new_path ++ " already exists, overlaying a project or " ++
          "app into an existing directory won\x27t replace conflicting files"))
      else
        let content1 :=
          if shouldRender P filename then P.render content else content
        renderFiles P (addFile fs new_path content1) relDir rest

mutual

/-- The `os.walk` loop of `TemplateCommand.handle` (lines 114-161) over one
walk root: create the root's target directory, copy/render its files, then
recurse into the subdirectories that survive pruning. -/
def renderWalk (P : RenderParams) (fs : FS) (relDir : String) :
    FTree → FS × Option String
  | FTree.mk ds fls =>
    let fs1 :=
      if relDir ≠ "" then mkdirIfAbsent fs (join2 P.topDir relDir) else fs
    match renderFiles P fs1 relDir fls with
    | (fs2, some e) => (fs2, some e)
    | (fs2, none) => renderDirList P fs2 relDir ds

/-- Walk a list of subdirectories in order, stopping at the first error.
Subdirectories removed by the `dirs.remove` loop of lines 124-126 are skipped
here, which is where the pruned `dirs` list takes effect in `os.walk`. -/
def renderDirList (P : RenderParams) (fs : FS) (relDir : String) :
    DirList → FS × Option String
  | DirList.nil => (fs, none)
  | DirList.cons name t rest =>
    if pruneName name then renderDirList P fs relDir rest
    else
      match renderWalk P fs (childRel relDir name) t with
      | (fs1, some e) => (fs1, some e)
      | (fs1, none) => renderDirList P fs1 relDir rest

end

/-- The `for template_dir in template_dirs` loop of `TemplateCommand.handle`:
walk each template directory in turn, reading its contents through the
directory-listing oracle `treeAt`. -/
def renderTemplateDirs (P : RenderParams) (treeAt : Path → FTree) (fs : FS) :
    List Path → FS × Option String
  | [] => (fs, none)
  | d :: rest =>
    match renderWalk P fs "" (treeAt d) with
    | (fs1, some e) => (fs1, some e)
    | (fs1, none) => renderTemplateDirs P treeAt fs1 rest

/-- The cleanup loop of `TemplateCommand.handle` (lines 163-171), reached
only after a fully successful render: files in `paths_to_remove` are removed,
directories are removed recursively. -/
def cleanupPaths (fs : FS) : List Path → FS
  | [] => fs
  | p :: rest =>
    cleanupPaths (if isFile fs p then removeFile fs p else rmtreeFS fs p) rest

/-- `TemplateCommand.handle`: create the target directory (failing when it
already exists), resolve the template, walk the template directory and any
plugin directories into the target, and clean up the recorded temporary
paths once everything succeeded.  Option parsing, verbosity output and the
permission-bit fix-up (non-fatal, filesystem-content neutral) are not
modelled. -/
def handle (env : Env) (treeAt : Path → FTree) (fs0 : FS) (app : String)
    (target : String) (template : Option String) (extensions : List String)
    (files : List String) (pluginDirs : List Path) :
    World × Except String Unit :=
  let w0 : World := { fs := fs0, pathsToRemove := [], temps := [], counter := 0 }
  let top_dir := join2 env.cwd target
  if pathExists fs0 top_dir then
    (w0, Except.error ("\x27" ++ top_dir ++ "\x27 already exists"))
  else
    let w1 := { w0 with fs := addDir fs0 top_dir }
    let exts := handle_extensions extensions
    let extra_files :=
      ((files.map (fun f =>
        (splitOnChar ',' f).map (fun x => strTrim x)))).flatten
    match handle_template env app w1 template (app ++ "_template") with
    | (w2, Except.error e) => (w2, Except.error e)
    | (w2, Except.ok project_template_dir) =>
      let P : RenderParams :=
        { topDir := top_dir, extensions := exts, extraFiles := extra_files,
          render := env.render }
      match renderTemplateDirs P treeAt w2.fs
          (project_template_dir :: pluginDirs) with
      | (fs3, some e) => ({ w2 with fs := fs3 }, Except.error e)
      | (fs3, none) =>
        ({ w2 with fs := cleanupPaths fs3 w2.pathsToRemove }, Except.ok ())

/-- A directory entry is on record for path `p`. -/
def hasDirEntry (fs : FS) (p : Path) : Prop :=
  (p, Entry.dir) ∈ fs.entries

/-- Destination path of one template file in the walk. -/
def destOfFile (topDir relDir filename : String) : Path :=
  join3 topDir relDir filename

/-- Destinations of the non-skipped files of one directory's file list. -/
def destFilesOf (topDir relDir : String) (fls : List (String × String)) :
    List Path :=
  fls.filterMap
    (fun fc => if skipFile fc.1 then none
      else some (destOfFile topDir relDir fc.1))

mutual

/-- All file destinations the walk visits in a tree: the non-skipped files of
each directory reached through a chain of non-pruned directory names. -/
def destFiles (topDir relDir : String) : FTree → List Path
  | FTree.mk ds fls =>
    destFilesOf topDir relDir fls ++ destFilesDirs topDir relDir ds

/-- `DirList` companion of `destFiles`. -/
def destFilesDirs (topDir relDir : String) : DirList → List Path
  | DirList.nil => []
  | DirList.cons name t rest =>
    (if pruneName name then [] else destFiles topDir (childRel relDir name) t)
      ++ destFilesDirs topDir relDir rest

end

/-- Modelled from the amended specification sentence for the download
filename improvement: append a MIME-guessed (nonempty) extension exactly when
the candidate name has no extension (per `splitext`) and a nonempty
`content-type` header is present. -/
def maybeAppendExt (guessExt : String → Option String) (name : String)
    (ct : Option String) : String :=
  if (splitext name).2 = "" then
    match ct with
    | some ctv =>
      if ctv ≠ "" then
        match guessExt ctv with
        | some e => if e ≠ "" then name ++ e else name
        | none => name
      else name
    | none => name
  else name

/-- A concrete environment: everything local, extraction fails. -/
def idEnvC : Env :=
  { cwd := "/work", djangoPath := "/dj",
    expanduser := fun s => s, normpath := fun s => s, abspath := fun s => s,
    fetchOk := fun _ => true, fetchContent := fun _ => "data",
    fetchErr := fun _ => "err",
    cdHeader := fun _ => none, parseFilenameParam := fun _ => none,
    ctHeader := fun _ => none, guessExtension := fun _ => none,
    extractOk := fun _ => false, extractErr := fun _ => "bad",
    render := fun s => s }

/-- A concrete environment in which extraction succeeds. -/
def okEnvC : Env := { idEnvC with extractOk := fun _ => true }

/-- A concrete environment with download response headers: a
`content-disposition` filename `foo` and content type `application/zip`. -/
def dlEnvC : Env :=
  { idEnvC with
    cdHeader := fun _ => some "attachment; filename=foo",
    parseFilenameParam := fun s =>
      if s = "attachment; filename=foo" then some "foo" else none,
    ctHeader := fun _ => some "application/zip",
    guessExtension := fun ct =>
      if ct = "application/zip" then some ".zip" else none }

/-- Directory listing oracle returning an empty directory everywhere. -/
def emptyTreeAtC : Path → FTree := fun _ => FTree.mk DirList.nil []

/-- A concrete filesystem holding one local archive file. -/
def fsArchiveC : FS := ⟨[("/arch.tar.gz", Entry.file "x")]⟩

/-- A concrete filesystem in which the target directory already exists. -/
def fsTargetC : FS := ⟨[("/work/proj", Entry.dir)]⟩

/-- A concrete filesystem holding one local template directory. -/
def fsDirC : FS := ⟨[("/home/u/tpl", Entry.dir)]⟩

/-- A concrete filesystem with a pre-existing destination file inside the
(otherwise absent) target. -/
def fsConflictC : FS := ⟨[("/work/proj/notes.txt", Entry.file "old")]⟩

/-- An empty starting world. -/
def w0C : World := { fs := ⟨[]⟩, pathsToRemove := [], temps := [], counter := 0 }

/-- A starting world over `fsDirC`. -/
def wDirC : World :=
  { fs := fsDirC, pathsToRemove := [], temps := [], counter := 0 }

/-- A concrete template tree with a pruned directory (`.git`), a kept
directory (`pkg`), a skipped file (`x.pyc`), a rendered file (`app.py`) and a
copied file (`notes.txt`). -/
def treC : FTree :=
  FTree.mk
    (DirList.cons ".git" (FTree.mk DirList.nil [("config", "c")])
      (DirList.cons "pkg" (FTree.mk DirList.nil [("mod.py", "m")])
        DirList.nil))
    [("app.py", "hello"), ("x.pyc", "z"), ("notes.txt", "n")]

/-- Directory listing oracle serving `treC` as the default skeleton. -/
def treeAtC : Path → FTree :=
  fun p => if p = "/dj/conf/project_template" then treC else FTree.mk DirList.nil []

/-- Concrete walk parameters for `treC` into `/work/proj`. -/
def paramsC : RenderParams :=
  { topDir := "/work/proj", extensions := [".py"], extraFiles := [],
    render := fun s => s }

/-- Looking a path up after recording a directory at `q`. -/
theorem findEntry_addDir (fs : FS) (q p : Path) :
    findEntry (addDir fs q) p =
      if q = p then some Entry.dir else findEntry fs p := by
  by_cases h : q = p <;> simp [findEntry, addDir, List.find?, h]

/-- Looking a path up after recording a file at `q`. -/
theorem findEntry_addFile (fs : FS) (q p : Path) (c : String) :
    findEntry (addFile fs q c) p =
      if q = p then some (Entry.file c) else findEntry fs p := by
  by_cases h : q = p <;> simp [findEntry, addFile, List.find?, h]

/-- Recording a directory keeps every present path present. -/
theorem pathExists_addDir_of (fs : FS) (q p : Path)
    (h : pathExists fs p = true) : pathExists (addDir fs q) p = true := by
  by_cases hq : q = p
  · simp [pathExists, findEntry_addDir, hq]
  · simp only [pathExists, findEntry_addDir, if_neg hq]
    exact h

/-- Recording a file keeps every present path present. -/
theorem pathExists_addFile_of (fs : FS) (q p : Path) (c : String)
    (h : pathExists fs p = true) : pathExists (addFile fs q c) p = true := by
  by_cases hq : q = p
  · simp [pathExists, findEntry_addFile, hq]
  · simp only [pathExists, findEntry_addFile, if_neg hq]
    exact h

/-- An existing path keeps its entry across a write to an absent path. -/
theorem findEntry_addFile_of_ne (fs : FS) (q p : Path) (c : String)
    (hq : pathExists fs q = false) (en : Entry)
    (h : findEntry fs p = some en) :
    findEntry (addFile fs q c) p = some en := by
  have hne : q ≠ p := by
    intro he
    rw [he] at hq
    simp [pathExists, h] at hq
  rw [findEntry_addFile, if_neg hne]
  exact h

/-- An existing path keeps its entry across `mkdirIfAbsent`. -/
theorem findEntry_mkdirIfAbsent (fs : FS) (q p : Path) (en : Entry)
    (h : findEntry fs p = some en) :
    findEntry (mkdirIfAbsent fs q) p = some en := by
  unfold mkdirIfAbsent
  split
  · exact h
  · next hq =>
    have hne : q ≠ p := by
      intro he
      rw [he] at hq
      simp [pathExists, h] at hq
    rw [findEntry_addDir, if_neg hne]
    exact h

/-- A recorded directory entry makes the path exist. -/
theorem pathExists_of_hasDirEntry (fs : FS) (p : Path)
    (h : hasDirEntry fs p) : pathExists fs p = true := by
  rcases fs with ⟨l⟩
  simp only [pathExists, findEntry]
  induction l with
  | nil => simp [hasDirEntry] at h
  | cons e rest ih =>
    by_cases he : e.1 = p
    · simp [List.find?, he]
    · have : (p, Entry.dir) ∈ rest := by
        rcases (List.mem_cons.mp h) with h1 | h1
        · exact absurd (congrArg Prod.fst h1.symm) he
        · exact h1
      have := ih this
      simpa [List.find?, he] using this

/-- Recording a directory preserves recorded directory entries. -/
theorem hasDirEntry_addDir (fs : FS) (q p : Path)
    (h : hasDirEntry fs p) : hasDirEntry (addDir fs q) p :=
  List.mem_cons_of_mem _ h

/-- The directory just recorded has a directory entry. -/
theorem hasDirEntry_addDir_self (fs : FS) (q : Path) :
    hasDirEntry (addDir fs q) q :=
  List.mem_cons_self _ _

/-- Recording a file preserves recorded directory entries. -/
theorem hasDirEntry_addFile (fs : FS) (q p : Path) (c : String)
    (h : hasDirEntry fs p) : hasDirEntry (addFile fs q c) p :=
  List.mem_cons_of_mem _ h

/-- `os.remove` never deletes a directory entry. -/
theorem hasDirEntry_removeFile (fs : FS) (q p : Path)
    (h : hasDirEntry fs p) : hasDirEntry (removeFile fs q) p := by
  simp only [hasDirEntry, removeFile, List.mem_filter]
  exact ⟨h, by simp⟩

/-- `mkdirIfAbsent` preserves recorded directory entries. -/
theorem hasDirEntry_mkdirIfAbsent (fs : FS) (q p : Path)
    (h : hasDirEntry fs p) : hasDirEntry (mkdirIfAbsent fs q) p := by
  unfold mkdirIfAbsent
  split
  · exact h
  · exact hasDirEntry_addDir fs q p h

/-- The file loop only writes to absent destinations, so every present entry
survives it unchanged. -/
theorem renderFiles_preserves (P : RenderParams) (relDir : String)
    (p : Path) (en : Entry) :
    ∀ (fls : List (String × String)) (fs : FS),
      findEntry fs p = some en →
      findEntry (renderFiles P fs relDir fls).1 p = some en := by
  intro fls
  induction fls with
  | nil => intro fs h; simpa [renderFiles] using h
  | cons fc rest ih =>
    intro fs h
    rcases fc with ⟨filename, content⟩
    by_cases hs : skipFile filename
    · simpa [renderFiles, hs] using ih fs h
    · by_cases he : pathExists fs (join3 P.topDir relDir filename)
      · simpa [renderFiles, hs, he] using h
      · have he' : pathExists fs (join3 P.topDir relDir filename) = false := by
          simpa using he
        have h1 := findEntry_addFile_of_ne fs (join3 P.topDir relDir filename)
          p (if shouldRender P filename then P.render content else content)
          he' en h
        simpa [renderFiles, hs, he] using ih _ h1

mutual

/-- The walk only writes to absent destinations, so every present entry
survives it unchanged: this is the no-silent-overwrite property. -/
theorem renderWalk_preserves (P : RenderParams) (p : Path) (en : Entry) :
    ∀ (t : FTree) (fs : FS) (relDir : String),
      findEntry fs p = some en →
      findEntry (renderWalk P fs relDir t).1 p = some en
  | FTree.mk ds fls, fs, relDir, h => by
    have step : ∀ (fsx : FS), findEntry fsx p = some en →
        findEntry
          (match renderFiles P fsx relDir fls with
            | (fs2, some e) => (fs2, some e)
            | (fs2, none) => renderDirList P fs2 relDir ds).1 p = some en := by
      intro fsx hx
      have h2 := renderFiles_preserves P relDir p en fls fsx hx
      rcases hr : renderFiles P fsx relDir fls with ⟨fs2, err⟩
      rw [hr] at h2
      cases err with
      | some e => simpa using h2
      | none => simpa using renderDirList_preserves P p en ds fs2 relDir h2
    unfold renderWalk
    by_cases hrel : relDir = ""
    · rw [if_neg (not_not_intro hrel)]
      exact step fs h
    · rw [if_pos hrel]
      exact step _ (findEntry_mkdirIfAbsent fs _ p en h)

/-- `renderDirList` version of `renderWalk_preserves`. -/
theorem renderDirList_preserves (P : RenderParams) (p : Path) (en : Entry) :
    ∀ (ds : DirList) (fs : FS) (relDir : String),
      findEntry fs p = some en →
      findEntry (renderDirList P fs relDir ds).1 p = some en
  | DirList.nil, fs, relDir, h => by simpa [renderDirList] using h
  | DirList.cons name t rest, fs, relDir, h => by
    unfold renderDirList
    by_cases hp : pruneName name
    · simpa [hp] using renderDirList_preserves P p en rest fs relDir h
    · have h1 := renderWalk_preserves P p en t fs (childRel relDir name) h
      rcases hw : renderWalk P fs (childRel relDir name) t with ⟨fs1, err⟩
      rw [hw] at h1
      cases err with
      | some e => simpa [hp, hw] using h1
      | none =>
        simpa [hp, hw] using renderDirList_preserves P p en rest fs1 relDir h1

end

/-- A present path stays present across the file loop. -/
theorem renderFiles_mono (P : RenderParams) (relDir : String) (p : Path)
    (fls : List (String × String)) (fs : FS)
    (h : pathExists fs p = true) :
    pathExists (renderFiles P fs relDir fls).1 p = true := by
  rcases Option.isSome_iff_exists.mp (by simpa [pathExists] using h) with ⟨en, hen⟩
  have := renderFiles_preserves P relDir p en fls fs hen
  simp [pathExists, this]

/-- A present path stays present across the walk. -/
theorem renderWalk_mono (P : RenderParams) (t : FTree) (fs : FS)
    (relDir : String) (p : Path) (h : pathExists fs p = true) :
    pathExists (renderWalk P fs relDir t).1 p = true := by
  rcases Option.isSome_iff_exists.mp (by simpa [pathExists] using h) with ⟨en, hen⟩
  have := renderWalk_preserves P p en t fs relDir hen
  simp [pathExists, this]

/-- If some visited file's destination already exists, the file loop reports
an error. -/
theorem renderFiles_conflict (P : RenderParams) (relDir : String) (p : Path) :
    ∀ (fls : List (String × String)) (fs : FS),
      p ∈ destFilesOf P.topDir relDir fls →
      pathExists fs p = true →
      ((renderFiles P fs relDir fls).2).isSome = true := by
  intro fls
  induction fls with
  | nil => intro fs hm; simp [destFilesOf] at hm
  | cons fc rest ih =>
    intro fs hm hp
    rcases fc with ⟨filename, content⟩
    by_cases hs : skipFile filename
    · have hm' : p ∈ destFilesOf P.topDir relDir rest := by
        simpa [destFilesOf, List.filterMap_cons, hs] using hm
      simpa [renderFiles, hs] using ih fs hm' hp
    · by_cases he : pathExists fs (join3 P.topDir relDir filename)
      · simp [renderFiles, hs, he]
      · have hne : p ≠ join3 P.topDir relDir filename := by
          intro hpe
          rw [hpe] at hp
          simp [hp] at he
        have hm' : p ∈ destFilesOf P.topDir relDir rest := by
          rcases (by simpa [destFilesOf, List.filterMap_cons, hs] using hm :
              p = destOfFile P.topDir relDir filename ∨
                p ∈ destFilesOf P.topDir relDir rest) with h1 | h1
          · exact absurd h1 hne
          · exact h1
        have hp' := pathExists_addFile_of fs (join3 P.topDir relDir filename)
          p (if shouldRender P filename then P.render content else content) hp
        simpa [renderFiles, hs, he] using ih _ hm' hp'

mutual

/-- If some file destination visited by the walk already exists in the
filesystem, the walk reports an error. -/
theorem renderWalk_conflict (P : RenderParams) (p : Path) :
    ∀ (t : FTree) (fs : FS) (relDir : String),
      p ∈ destFiles P.topDir relDir t →
      pathExists fs p = true →
      ((renderWalk P fs relDir t).2).isSome = true
  | FTree.mk ds fls, fs, relDir, hm, hp => by
    have step : ∀ (fsx : FS), pathExists fsx p = true →
        ((match renderFiles P fsx relDir fls with
          | (fs2, some e) => (fs2, some e)
          | (fs2, none) => renderDirList P fs2 relDir ds).2).isSome = true := by
      intro fsx hx
      rcases (by simpa [destFiles] using hm :
          p ∈ destFilesOf P.topDir relDir fls ∨
            p ∈ destFilesDirs P.topDir relDir ds) with h1 | h1
      · have := renderFiles_conflict P relDir p fls fsx h1 hx
        rcases hr : renderFiles P fsx relDir fls with ⟨fs2, err⟩
        rw [hr] at this
        cases err with
        | some e => simp
        | none => simp at this
      · rcases hr : renderFiles P fsx relDir fls with ⟨fs2, err⟩
        cases err with
        | some e => simp
        | none =>
          have hx2 : pathExists fs2 p = true := by
            have := renderFiles_mono P relDir p fls fsx hx
            rw [hr] at this
            exact this
          simpa using renderDirList_conflict P p ds fs2 relDir h1 hx2
    unfold renderWalk
    by_cases hrel : relDir = ""
    · rw [if_neg (not_not_intro hrel)]
      exact step fs hp
    · rw [if_pos hrel]
      refine step _ ?_
      rcases Option.isSome_iff_exists.mp (by simpa [pathExists] using hp) with
        ⟨en, hen⟩
      have := findEntry_mkdirIfAbsent fs (join2 P.topDir relDir) p en hen
      simp [pathExists, this]

/-- `DirList` companion of `renderWalk_conflict`. -/
theorem renderDirList_conflict (P : RenderParams) (p : Path) :
    ∀ (ds : DirList) (fs : FS) (relDir : String),
      p ∈ destFilesDirs P.topDir relDir ds →
      pathExists fs p = true →
      ((renderDirList P fs relDir ds).2).isSome = true
  | DirList.nil, fs, relDir, hm, hp => by simp [destFilesDirs] at hm
  | DirList.cons name t rest, fs, relDir, hm, hp => by
    by_cases hpr : pruneName name
    · have hm' : p ∈ destFilesDirs P.topDir relDir rest := by
        simpa [destFilesDirs, hpr] using hm
      simpa [renderDirList, hpr] using
        renderDirList_conflict P p rest fs relDir hm' hp
    · rcases (by simpa [destFilesDirs, hpr] using hm :
          p ∈ destFiles P.topDir (childRel relDir name) t ∨
            p ∈ destFilesDirs P.topDir relDir rest) with h1 | h1
      · have := renderWalk_conflict P p t fs (childRel relDir name) h1 hp
        rcases hw : renderWalk P fs (childRel relDir name) t with ⟨fs1, err⟩
        rw [hw] at this
        cases err with
        | some e => simp [renderDirList, hpr, hw]
        | none => simp at this
      · rcases hw : renderWalk P fs (childRel relDir name) t with ⟨fs1, err⟩
        cases err with
        | some e => simp [renderDirList, hpr, hw]
        | none =>
          have hp1 : pathExists fs1 p = true := by
            have := renderWalk_mono P t fs (childRel relDir name) p hp
            rw [hw] at this
            exact this
          simpa [renderDirList, hpr, hw] using
            renderDirList_conflict P p rest fs1 relDir h1 hp1

end

/-- `mkdirIfAbsent` only adds entries. -/
theorem mem_mkdirIfAbsent (fs : FS) (q : Path) (x : Path × Entry)
    (h : x ∈ fs.entries) : x ∈ (mkdirIfAbsent fs q).entries := by
  unfold mkdirIfAbsent
  split
  · exact h
  · exact List.mem_cons_of_mem _ h

/-- The file loop only adds entries. -/
theorem mem_renderFiles (P : RenderParams) (relDir : String)
    (x : Path × Entry) :
    ∀ (fls : List (String × String)) (fs : FS), x ∈ fs.entries →
      x ∈ (renderFiles P fs relDir fls).1.entries := by
  intro fls
  induction fls with
  | nil => intro fs h; simpa [renderFiles] using h
  | cons fc rest ih =>
    intro fs h
    rcases fc with ⟨filename, content⟩
    by_cases hs : skipFile filename
    · simpa [renderFiles, hs] using ih fs h
    · by_cases he : pathExists fs (join3 P.topDir relDir filename)
      · simpa [renderFiles, hs, he] using h
      · simpa [renderFiles, hs, he] using
          ih (addFile fs (join3 P.topDir relDir filename)
            (if shouldRender P filename then P.render content else content))
            (List.mem_cons_of_mem _ h)

mutual

/-- The walk only adds entries, never removes any. -/
theorem mem_renderWalk (P : RenderParams) (x : Path × Entry) :
    ∀ (t : FTree) (fs : FS) (relDir : String), x ∈ fs.entries →
      x ∈ (renderWalk P fs relDir t).1.entries
  | FTree.mk ds fls, fs, relDir, h => by
    have step : ∀ (fsx : FS), x ∈ fsx.entries →
        x ∈ (match renderFiles P fsx relDir fls with
          | (fs2, some e) => (fs2, some e)
          | (fs2, none) => renderDirList P fs2 relDir ds).1.entries := by
      intro fsx hx
      have h2 := mem_renderFiles P relDir x fls fsx hx
      rcases hr : renderFiles P fsx relDir fls with ⟨fs2, err⟩
      rw [hr] at h2
      cases err with
      | some e => simpa using h2
      | none => simpa using mem_renderDirList P x ds fs2 relDir h2
    unfold renderWalk
    by_cases hrel : relDir = ""
    · rw [if_neg (not_not_intro hrel)]
      exact step fs h
    · rw [if_pos hrel]
      exact step _ (mem_mkdirIfAbsent fs _ x h)

/-- `DirList` companion of `mem_renderWalk`. -/
theorem mem_renderDirList (P : RenderParams) (x : Path × Entry) :
    ∀ (ds : DirList) (fs : FS) (relDir : String), x ∈ fs.entries →
      x ∈ (renderDirList P fs relDir ds).1.entries
  | DirList.nil, fs, relDir, h => by simpa [renderDirList] using h
  | DirList.cons name t rest, fs, relDir, h => by
    unfold renderDirList
    by_cases hp : pruneName name
    · simpa [hp] using mem_renderDirList P x rest fs relDir h
    · have h1 := mem_renderWalk P x t fs (childRel relDir name) h
      rcases hw : renderWalk P fs (childRel relDir name) t with ⟨fs1, err⟩
      rw [hw] at h1
      cases err with
      | some e => simpa [hp, hw] using h1
      | none => simpa [hp, hw] using mem_renderDirList P x rest fs1 relDir h1

end

/-- The template-directory loop only adds entries. -/
theorem mem_renderTemplateDirs (P : RenderParams) (treeAt : Path → FTree)
    (x : Path × Entry) :
    ∀ (dirs : List Path) (fs : FS), x ∈ fs.entries →
      x ∈ (renderTemplateDirs P treeAt fs dirs).1.entries := by
  intro dirs
  induction dirs with
  | nil => intro fs h; simpa [renderTemplateDirs] using h
  | cons d rest ih =>
    intro fs h
    have h1 := mem_renderWalk P x (treeAt d) fs "" h
    rcases hw : renderWalk P fs "" (treeAt d) with ⟨fs1, err⟩
    rw [hw] at h1
    cases err with
    | some e => simpa [renderTemplateDirs, hw] using h1
    | none => simpa [renderTemplateDirs, hw] using ih fs1 h1

/-- In every branch of `download`, the temp directory is appended to both the
ghost artifact list and `paths_to_remove` (before the fetch can fail), and
the final filesystem still extends the state right after the temp directory
was recorded, by additions and file removals only. -/
theorem download_fields (env : Env) (app : String) (w : World) (url : String) :
    (download env app w url).1.pathsToRemove =
      w.pathsToRemove ++ [dlTmpName app w.counter]
  ∧ (download env app w url).1.temps = w.temps ++ [dlTmpName app w.counter]
  ∧ ∀ p, hasDirEntry (addDir w.fs (dlTmpName app w.counter)) p →
      hasDirEntry (download env app w url).1.fs p := by
  unfold download
  split
  · exact ⟨rfl, rfl, fun p h => h⟩
  · dsimp only
    split
    · exact ⟨rfl, rfl, fun p h =>
        hasDirEntry_addFile _ _ _ _
          (hasDirEntry_removeFile _ _ _ (hasDirEntry_addFile _ _ _ _ h))⟩
    · exact ⟨rfl, rfl, fun p h => hasDirEntry_addFile _ _ _ _ h⟩

/-- In every branch of `extract`, the temp directory is appended to both the
ghost artifact list and `paths_to_remove` (before the extraction can fail),
and the final filesystem extends the state right after the temp directory was
recorded. -/
theorem extract_fields (env : Env) (app : String) (w : World)
    (filename : Path) :
    (extract env app w filename).1.pathsToRemove =
      w.pathsToRemove ++ [exTmpName app w.counter]
  ∧ (extract env app w filename).1.temps = w.temps ++ [exTmpName app w.counter]
  ∧ ∀ p, hasDirEntry (addDir w.fs (exTmpName app w.counter)) p →
      hasDirEntry (extract env app w filename).1.fs p := by
  unfold extract
  split
  · exact ⟨rfl, rfl, fun p h => h⟩
  · exact ⟨rfl, rfl, fun p h => h⟩

/-- Appending the same element preserves list inclusion. -/
theorem subset_append_singleton {a b : List Path} (x : Path) (h : a ⊆ b) :
    a ++ [x] ⊆ b ++ [x] := by
  intro y hy
  rcases List.mem_append.mp hy with h1 | h1
  · exact List.mem_append.mpr (Or.inl (h h1))
  · exact List.mem_append.mpr (Or.inr h1)

/-- `download` keeps the directory-entry invariant for the recorded removal
paths. -/
theorem download_dirInv_of (env : Env) (app : String) (w : World)
    (url : String) (h : ∀ p ∈ w.pathsToRemove, hasDirEntry w.fs p) :
    ∀ p ∈ (download env app w url).1.pathsToRemove,
      hasDirEntry (download env app w url).1.fs p := by
  intro p hp
  rcases download_fields env app w url with ⟨h1, _, h3⟩
  rw [h1] at hp
  rcases List.mem_append.mp hp with hm | hm
  · exact h3 p (hasDirEntry_addDir _ _ _ (h p hm))
  · have : p = dlTmpName app w.counter := List.mem_singleton.mp hm
    subst this
    exact h3 _ (hasDirEntry_addDir_self _ _)

/-- `extract` keeps the directory-entry invariant for the recorded removal
paths. -/
theorem extract_dirInv_of (env : Env) (app : String) (w : World)
    (filename : Path) (h : ∀ p ∈ w.pathsToRemove, hasDirEntry w.fs p) :
    ∀ p ∈ (extract env app w filename).1.pathsToRemove,
      hasDirEntry (extract env app w filename).1.fs p := by
  intro p hp
  rcases extract_fields env app w filename with ⟨h1, _, h3⟩
  rw [h1] at hp
  rcases List.mem_append.mp hp with hm | hm
  · exact h3 p (hasDirEntry_addDir _ _ _ (h p hm))
  · have : p = exTmpName app w.counter := List.mem_singleton.mp hm
    subst this
    exact h3 _ (hasDirEntry_addDir_self _ _)

/-- `handle_template` keeps the directory-entry invariant for the recorded
removal paths, on every resolution branch and outcome. -/
theorem handle_template_dirInv (env : Env) (app : String) (w : World)
    (template : Option String) (subdir : String)
    (h : ∀ p ∈ w.pathsToRemove, hasDirEntry w.fs p) :
    ∀ p ∈ (handle_template env app w template subdir).1.pathsToRemove,
      hasDirEntry (handle_template env app w template subdir).1.fs p := by
  cases template with
  | none => simpa [handle_template] using h
  | some tpl0 =>
    unfold handle_template
    dsimp only
    split
    · exact h
    · split
      · next w1 e heq =>
        by_cases hu : is_url (stripFileScheme tpl0)
        · rw [if_pos hu] at heq
          have hd := download_dirInv_of env app w (stripFileScheme tpl0) h
          rw [heq] at hd
          exact hd
        · rw [if_neg hu] at heq
          cases heq
      · next w1 ap heq =>
        have hw1 : ∀ p ∈ w1.pathsToRemove, hasDirEntry w1.fs p := by
          by_cases hu : is_url (stripFileScheme tpl0)
          · rw [if_pos hu] at heq
            have hd := download_dirInv_of env app w (stripFileScheme tpl0) h
            rw [heq] at hd
            exact hd
          · rw [if_neg hu] at heq
            cases heq
            exact h
        split
        · exact extract_dirInv_of env app w1 ap hw1
        · exact hw1

/-- `download` preserves the property that every created temp artifact is
recorded in `paths_to_remove`. -/
theorem download_temps_subset (env : Env) (app : String) (w : World)
    (url : String) (h : w.temps ⊆ w.pathsToRemove) :
    (download env app w url).1.temps ⊆ (download env app w url).1.pathsToRemove := by
  rcases download_fields env app w url with ⟨h1, h2, _⟩
  rw [h1, h2]
  exact subset_append_singleton _ h

/-- `extract` preserves the property that every created temp artifact is
recorded in `paths_to_remove`. -/
theorem extract_temps_subset (env : Env) (app : String) (w : World)
    (filename : Path) (h : w.temps ⊆ w.pathsToRemove) :
    (extract env app w filename).1.temps ⊆
      (extract env app w filename).1.pathsToRemove := by
  rcases extract_fields env app w filename with ⟨h1, h2, _⟩
  rw [h1, h2]
  exact subset_append_singleton _ h

/-- `handle_template` preserves the property that every created temp artifact
is recorded in `paths_to_remove`, on every branch and outcome. -/
theorem handle_template_temps_subset (env : Env) (app : String) (w : World)
    (template : Option String) (subdir : String)
    (h : w.temps ⊆ w.pathsToRemove) :
    (handle_template env app w template subdir).1.temps ⊆
      (handle_template env app w template subdir).1.pathsToRemove := by
  cases template with
  | none => simpa [handle_template] using h
  | some tpl0 =>
    unfold handle_template
    dsimp only
    split
    · exact h
    · split
      · next w1 e heq =>
        by_cases hu : is_url (stripFileScheme tpl0)
        · rw [if_pos hu] at heq
          have hd := download_temps_subset env app w (stripFileScheme tpl0) h
          rw [heq] at hd
          exact hd
        · rw [if_neg hu] at heq
          cases heq
      · next w1 ap heq =>
        have hw1 : w1.temps ⊆ w1.pathsToRemove := by
          by_cases hu : is_url (stripFileScheme tpl0)
          · rw [if_pos hu] at heq
            have hd := download_temps_subset env app w (stripFileScheme tpl0) h
            rw [heq] at hd
            exact hd
          · rw [if_neg hu] at heq
            cases heq
            exact h
        split
        · exact extract_temps_subset env app w1 ap hw1
        · exact hw1

/-- When `handle` returns an error, every recorded removal path is still
present in the returned filesystem: the cleanup loop only runs on the success
path, so failed runs leave their temp artifacts behind. -/
theorem handle_error_keeps_records_aux (env : Env) (treeAt : Path → FTree)
    (fs0 : FS) (app target : String) (template : Option String)
    (extensions files : List String) (pluginDirs : List Path) (e : String)
    (he : (handle env treeAt fs0 app target template extensions files
      pluginDirs).2 = Except.error e) :
    ∀ p ∈ (handle env treeAt fs0 app target template extensions files
      pluginDirs).1.pathsToRemove,
      pathExists (handle env treeAt fs0 app target template extensions files
        pluginDirs).1.fs p = true := by
  unfold handle at he ⊢
  dsimp only at he ⊢
  by_cases h0 : pathExists fs0 (join2 env.cwd target) = true
  · rw [if_pos h0] at he ⊢
    intro p hp
    simp at hp
  · rw [if_neg h0] at he ⊢
    have hinv := handle_template_dirInv env app
      { fs := addDir fs0 (join2 env.cwd target), pathsToRemove := [],
        temps := [], counter := 0 }
      template (app ++ "_template") (by intro p hp; simp at hp)
    rcases hht : handle_template env app
        { fs := addDir fs0 (join2 env.cwd target), pathsToRemove := [],
          temps := [], counter := 0 }
        template (app ++ "_template") with ⟨w2, res⟩
    rw [hht] at he hinv
    cases res with
    | error e2 =>
      dsimp only at he hinv ⊢
      intro p hp
      exact pathExists_of_hasDirEntry _ _ (hinv p hp)
    | ok dir =>
      dsimp only at he hinv ⊢
      rcases hrt : renderTemplateDirs
          { topDir := join2 env.cwd target,
            extensions := handle_extensions extensions,
            extraFiles := ((files.map (fun f =>
              (splitOnChar ',' f).map (fun x => strTrim x)))).flatten,
            render := env.render } treeAt w2.fs (dir :: pluginDirs)
        with ⟨fs3, err⟩
      rw [hrt] at he
      cases err with
      | some e2 =>
        dsimp only at he ⊢
        intro p hp
        have hm := mem_renderTemplateDirs
          { topDir := join2 env.cwd target,
            extensions := handle_extensions extensions,
            extraFiles := ((files.map (fun f =>
              (splitOnChar ',' f).map (fun x => strTrim x)))).flatten,
            render := env.render } treeAt (p, Entry.dir) (dir :: pluginDirs)
          w2.fs (hinv p hp)
        rw [hrt] at hm
        exact pathExists_of_hasDirEntry _ _ hm
      | none =>
        dsimp only at he
        exact absurd he (by simp)

/-- When the target directory already exists, `handle` stops at `makedirs`
with the already-exists `CommandError` and the filesystem is unchanged. -/
theorem handle_target_exists (env : Env) (treeAt : Path → FTree) (fs0 : FS)
    (app target : String) (template : Option String)
    (extensions files : List String) (pluginDirs : List Path)
    (h0 : pathExists fs0 (join2 env.cwd target) = true) :
    handle env treeAt fs0 app target template extensions files pluginDirs =
      ({ fs := fs0, pathsToRemove := [], temps := [], counter := 0 },
        Except.error ("\x27" ++ join2 env.cwd target ++ "\x27 already exists")) := by
  unfold handle
  dsimp only
  rw [if_pos h0]

/-- Walking a tree whose first subdirectory is pruned is the same as walking
the tree without it: nothing under a pruned directory is copied. -/
theorem renderWalk_prune (P : RenderParams) (fs : FS) (relDir name : String)
    (sub : FTree) (ds : DirList) (fls : List (String × String))
    (h : pruneName name = true) :
    renderWalk P fs relDir (FTree.mk (DirList.cons name sub ds) fls) =
      renderWalk P fs relDir (FTree.mk ds fls) := by
  have step : ∀ (fsx : FS),
      (match renderFiles P fsx relDir fls with
        | (fs2, some e) => (fs2, some e)
        | (fs2, none) => renderDirList P fs2 relDir (DirList.cons name sub ds))
      =
      (match renderFiles P fsx relDir fls with
        | (fs2, some e) => (fs2, some e)
        | (fs2, none) => renderDirList P fs2 relDir ds) := by
    intro fsx
    rcases renderFiles P fsx relDir fls with ⟨fs2, err⟩
    cases err with
    | some e => rfl
    | none => simp only [renderDirList, h, if_true]
  unfold renderWalk
  by_cases hrel : relDir = ""
  · subst hrel
    exact step fs
  · simp only [ne_eq]
    rw [if_pos hrel]
    exact step _

/-- Walking a tree whose first file is skipped is the same as walking the
tree without it: skipped files are not copied. -/
theorem renderWalk_skip (P : RenderParams) (fs : FS) (relDir : String)
    (ds : DirList) (fname c : String) (fls : List (String × String))
    (h : skipFile fname = true) :
    renderWalk P fs relDir (FTree.mk ds ((fname, c) :: fls)) =
      renderWalk P fs relDir (FTree.mk ds fls) := by
  have step : ∀ (fsx : FS),
      renderFiles P fsx relDir ((fname, c) :: fls) =
        renderFiles P fsx relDir fls := by
    intro fsx
    simp only [renderFiles, h, if_true]
  have step2 : ∀ (fsx : FS),
      (match renderFiles P fsx relDir ((fname, c) :: fls) with
        | (fs2, some e) => (fs2, some e)
        | (fs2, none) => renderDirList P fs2 relDir ds)
      =
      (match renderFiles P fsx relDir fls with
        | (fs2, some e) => (fs2, some e)
        | (fs2, none) => renderDirList P fs2 relDir ds) := by
    intro fsx
    rw [step fsx]
  unfold renderWalk
  by_cases hrel : relDir = ""
  · subst hrel
    exact step2 fs
  · simp only [ne_eq]
    rw [if_pos hrel]
    exact step2 _

/-- C4: `is_url` returns false for every reference string containing no
colon; for a string containing a colon it returns true exactly when the
case-normalised substring before the first colon is one of the allowed
schemes http, https, ftp; in particular strings beginning `http://`,
`https://`, `ftp://` are classified as URLs while `git://` references and
plain names are not. -/
theorem is_url_classification :
    (∀ s : String, s.toList.contains ':' = false → is_url s = false)
  ∧ (∀ s : String, s.toList.contains ':' = true →
      is_url s = url_schemes.contains (lowerStr (schemeOf s)))
  ∧ is_url "http://example.com/tpl.tar.gz" = true
  ∧ is_url "https://example.com/x" = true
  ∧ is_url "ftp://host/y" = true
  ∧ is_url "HTTP://EXAMPLE.COM/Z" = true
  ∧ is_url "git://example.com/repo" = false
  ∧ is_url "template" = false := by
  refine ⟨?_, ?_, by decide, by decide, by decide, by decide, by decide,
    by decide⟩
  · intro s h
    unfold is_url
    rw [if_pos h]
  · intro s h
    unfold is_url
    rw [if_neg (fun hc => by rw [h] at hc; exact Bool.noConfusion hc)]

/-- Witness for C4 at concrete inputs. -/
theorem is_url_classification_witness :
    is_url "template" = false
  ∧ is_url "git://example.com/repo" =
      url_schemes.contains (lowerStr (schemeOf "git://example.com/repo")) := by
  constructor
  · exact is_url_classification.1 "template" (by decide)
  · exact is_url_classification.2.1 "git://example.com/repo" (by decide)

/-- C5: `splitext` behaves like `os.path.splitext` (whenever the root does
not end in `.tar`, it returns exactly the `posixpath.splitext` split), with
the compound suffix `.tar.*` special-cased; in particular
`splitext "project.tar.gz" = ("project", ".tar.gz")`,
`splitext "project.zip" = ("project", ".zip")` and
`splitext "project" = ("project", "")`. -/
theorem splitext_tar_special_case :
    splitext "project.tar.gz" = ("project", ".tar.gz")
  ∧ splitext "project.zip" = ("project", ".zip")
  ∧ splitext "project" = ("project", "")
  ∧ splitext "archive.tar.bz2" = ("archive", ".tar.bz2")
  ∧ (∀ p : String,
      ".tar".toList.isSuffixOf
        ((posixSplitextL p.toList).1.map Char.toLower) = false →
      splitext p =
        (String.mk (posixSplitextL p.toList).1,
         String.mk (posixSplitextL p.toList).2)) := by
  refine ⟨by decide, by decide, by decide, by decide, ?_⟩
  intro p h
  simp only [splitext]
  rw [if_neg (fun hc => by rw [h] at hc; exact Bool.noConfusion hc)]

/-- Witness for C5's generic clause at a concrete input. -/
theorem splitext_tar_special_case_witness :
    splitext "x.zip" =
      (String.mk (posixSplitextL "x.zip".toList).1,
       String.mk (posixSplitextL "x.zip".toList).2) :=
  splitext_tar_special_case.2.2.2.2 "x.zip" (by decide)

/-- C9: with no template reference, resolution returns the built-in skeleton
directory under Django's installation path and leaves the world (filesystem,
`paths_to_remove`, temp artifacts) untouched. -/
theorem default_template_directory (env : Env) (app : String) (w : World)
    (subdir : String) :
    handle_template env app w none subdir =
      (w, Except.ok (join2 (join2 env.djangoPath "conf") subdir))
  ∧ (handle_template env app w none subdir).1.temps = w.temps
  ∧ (handle_template env app w none subdir).1.pathsToRemove =
      w.pathsToRemove :=
  ⟨rfl, rfl, rfl⟩

/-- C6: when the expanded, normalised reference is an existing directory,
resolution returns exactly that directory with the world unchanged (no temp
artifacts recorded, nothing created or deleted, so the directory is not
owned), and resolving the same reference twice gives the same result from
the same unchanged world. -/
theorem local_directory_resolution_idempotent (env : Env) (app : String)
    (w : World) (tpl0 subdir : String)
    (h : isDir w.fs (env.normpath (env.expanduser (stripFileScheme tpl0))) =
      true) :
    handle_template env app w (some tpl0) subdir =
      (w, Except.ok (env.normpath (env.expanduser (stripFileScheme tpl0))))
  ∧ handle_template env app
      (handle_template env app w (some tpl0) subdir).1 (some tpl0) subdir =
      handle_template env app w (some tpl0) subdir := by
  have h1 : handle_template env app w (some tpl0) subdir =
      (w, Except.ok (env.normpath (env.expanduser (stripFileScheme tpl0)))) := by
    unfold handle_template
    dsimp only
    rw [if_pos h]
  refine ⟨h1, ?_⟩
  rw [h1]
  exact h1

/-- Witness for C6 at a concrete local template directory. -/
theorem local_directory_resolution_idempotent_witness :
    handle_template idEnvC "project" wDirC (some "file:///home/u/tpl")
      "project_template" = (wDirC, Except.ok "/home/u/tpl") := by
  have h := local_directory_resolution_idempotent idEnvC "project" wDirC
    "file:///home/u/tpl" "project_template" (by rfl)
  exact h.1

/-- C7 counterexample: for the reference `file:///nope.zip` (nothing at
`/nope.zip`), the unresolved-template error message carries the stripped
reference `/nope.zip`, not the original reference as the caller supplied it
(`file:///nope.zip`), so the error does not carry the original reference
string exactly. -/
theorem unresolved_error_reference_counterexample :
    handle_template idEnvC "project" w0C (some "file:///nope.zip")
      "project_template" =
      (w0C, Except.error "couldn\x27t handle project template /nope.zip.")
  ∧ ("couldn\x27t handle project template /nope.zip." : String) ≠
      "couldn\x27t handle project template file:///nope.zip." := by
  exact ⟨by rfl, by decide⟩

/-- C7 (amended): when no resolution branch yields a usable directory, the
error carries the reference string after stripping any `file://` prefix
(together with the app/project kind), not the raw caller-supplied string. -/
theorem unresolved_error_carries_stripped_reference (env : Env)
    (app : String) (w : World) (tpl0 subdir : String)
    (h1 : isDir w.fs
      (env.normpath (env.expanduser (stripFileScheme tpl0))) = false)
    (h2 : is_url (stripFileScheme tpl0) = false)
    (h3 : pathExists w.fs
      (env.abspath (env.normpath (env.expanduser (stripFileScheme tpl0)))) =
      false) :
    handle_template env app w (some tpl0) subdir =
      (w, Except.error ("couldn\x27t handle " ++ app ++ " template " ++
        stripFileScheme tpl0 ++ ".")) := by
  unfold handle_template
  dsimp only
  rw [if_neg (fun hc => by rw [h1] at hc; exact Bool.noConfusion hc)]
  rw [if_neg (fun hc => by rw [h2] at hc; exact Bool.noConfusion hc)]
  dsimp only
  rw [if_neg (fun hc => by rw [h3] at hc; exact Bool.noConfusion hc)]

/-- Witness for C7's amended theorem at a concrete unresolvable reference. -/
theorem unresolved_error_stripped_witness :
    handle_template idEnvC "project" w0C (some "file:///missing.tar.gz")
      "project_template" =
      (w0C, Except.error ("couldn\x27t handle " ++ "project" ++
        " template " ++ stripFileScheme "file:///missing.tar.gz" ++ ".")) :=
  unresolved_error_carries_stripped_reference idEnvC "project" w0C
    "file:///missing.tar.gz" "project_template" (by rfl) (by rfl) (by rfl)

/-- C2: in every branch of `download` and `extract` — including the failing
ones — the fresh temp directory has been appended to `paths_to_remove` (and
to the ghost list of created artifacts) before the fetch or the extraction
is attempted, so at the moment any error is raised every temp artifact
already created is recorded; consequently `handle_template` preserves the
invariant that all created artifacts are recorded. -/
theorem temp_artifacts_recorded_before_failure :
    (∀ (env : Env) (app : String) (w : World) (url : String),
      (download env app w url).1.pathsToRemove =
        w.pathsToRemove ++ [dlTmpName app w.counter]
      ∧ (download env app w url).1.temps =
        w.temps ++ [dlTmpName app w.counter])
  ∧ (∀ (env : Env) (app : String) (w : World) (filename : Path),
      (extract env app w filename).1.pathsToRemove =
        w.pathsToRemove ++ [exTmpName app w.counter]
      ∧ (extract env app w filename).1.temps =
        w.temps ++ [exTmpName app w.counter])
  ∧ (∀ (env : Env) (app : String) (w : World) (template : Option String)
      (subdir : String), w.temps ⊆ w.pathsToRemove →
      (handle_template env app w template subdir).1.temps ⊆
        (handle_template env app w template subdir).1.pathsToRemove) := by
  refine ⟨?_, ?_, ?_⟩
  · intro env app w url
    rcases download_fields env app w url with ⟨a, b, _⟩
    exact ⟨a, b⟩
  · intro env app w filename
    rcases extract_fields env app w filename with ⟨a, b, _⟩
    exact ⟨a, b⟩
  · intro env app w template subdir h
    exact handle_template_temps_subset env app w template subdir h

/-- Witness for C2's invariant clause on a concrete failing resolution. -/
theorem temp_artifacts_recorded_witness :
    (handle_template idEnvC "project" w0C (some "/arch.tar.gz")
      "project_template").1.temps ⊆
    (handle_template idEnvC "project" w0C (some "/arch.tar.gz")
      "project_template").1.pathsToRemove :=
  temp_artifacts_recorded_before_failure.2.2 idEnvC "project" w0C
    (some "/arch.tar.gz") "project_template" (by simp [w0C])

/-- C8 counterexample: with a `content-disposition` filename `foo` (no
extension) and content type `application/zip`, the stored name becomes
`foo.zip`: the MIME-type fallback is applied even though the
content-disposition header supplied a filename, so the claim that the
supplied name is used (with extension guessing only otherwise) fails.  The
end-to-end download stores `foo.zip` accordingly. -/
theorem download_filename_improvement_counterexample :
    improveFilename dlEnvC.parseFilenameParam dlEnvC.guessExtension
      "download" (some "attachment; filename=foo") (some "application/zip") =
      "foo.zip"
  ∧ ("foo.zip" : String) ≠ "foo"
  ∧ (download dlEnvC "project" w0C "http://h/download").2 =
      Except.ok "/tmp/django_project_template_0_download/foo.zip" := by
  exact ⟨by rfl, by decide, by rfl⟩

/-- C8 (amended): the candidate filename comes from a nonempty
`content-disposition` filename parameter when one is supplied and otherwise
stays the URL-derived name; then — whichever source the candidate came from
— a MIME-guessed extension is appended exactly when the candidate has no
extension (per `splitext`) and a content-type header is present; the file is
moved exactly when the final name differs from the original (concretely: the
improved run stores and returns `foo.zip` with the original name gone, and a
run with no headers keeps and returns the URL-derived name). -/
theorem download_filename_improvement :
    (∀ (parse guessExt : String → Option String) (u : String)
      (ct : Option String),
      improveFilename parse guessExt u none ct = maybeAppendExt guessExt u ct)
  ∧ (∀ (parse guessExt : String → Option String) (u cdv f : String)
      (ct : Option String), cdv ≠ "" → parse cdv = some f → f ≠ "" →
      improveFilename parse guessExt u (some cdv) ct =
        maybeAppendExt guessExt f ct)
  ∧ (∀ (parse guessExt : String → Option String) (u cdv : String)
      (ct : Option String), cdv ≠ "" → parse cdv = none →
      improveFilename parse guessExt u (some cdv) ct =
        maybeAppendExt guessExt u ct)
  ∧ ((download dlEnvC "project" w0C "http://h/download").2 =
      Except.ok "/tmp/django_project_template_0_download/foo.zip"
    ∧ pathExists (download dlEnvC "project" w0C "http://h/download").1.fs
        "/tmp/django_project_template_0_download/download" = false
    ∧ isFile (download dlEnvC "project" w0C "http://h/download").1.fs
        "/tmp/django_project_template_0_download/foo.zip" = true)
  ∧ ((download idEnvC "project" w0C "http://h/t.tar.gz").2 =
      Except.ok "/tmp/django_project_template_0_download/t.tar.gz"
    ∧ isFile (download idEnvC "project" w0C "http://h/t.tar.gz").1.fs
        "/tmp/django_project_template_0_download/t.tar.gz" = true) := by
  refine ⟨?_, ?_, ?_, ⟨by rfl, by rfl, by rfl⟩, ⟨by rfl, by rfl⟩⟩
  · intro parse guessExt u ct
    rfl
  · intro parse guessExt u cdv f ct hcd hp hf
    simp only [improveFilename, maybeAppendExt, hp]
    simp only [if_pos hcd, if_pos hf]
  · intro parse guessExt u cdv ct hcd hp
    simp only [improveFilename, maybeAppendExt, hp]
    simp only [if_pos hcd]

/-- Witness for C8's content-disposition clause at concrete inputs. -/
theorem download_filename_improvement_witness :
    improveFilename dlEnvC.parseFilenameParam dlEnvC.guessExtension
      "download" (some "attachment; filename=foo") (some "application/zip") =
      maybeAppendExt dlEnvC.guessExtension "foo" (some "application/zip") :=
  download_filename_improvement.2.1 dlEnvC.parseFilenameParam
    dlEnvC.guessExtension "download" "attachment; filename=foo" "foo"
    (some "application/zip") (by decide) (by rfl) (by decide)

/-- C10: directories whose name starts with a dot or equals `__pycache__`
are pruned from the walk (walking a tree with such a subdirectory equals
walking the tree without it, so nothing under it is copied), and files named
`*.pyo`, `*.pyc`, `*.py.class` are skipped the same way; consequently the
output tree is not an exact mirror: in the concrete run the template's
`.git/config` and `x.pyc` have no counterpart in the output while its other
entries do. -/
theorem walk_prunes_and_skips :
    (∀ (P : RenderParams) (fs : FS) (relDir name : String) (sub : FTree)
      (ds : DirList) (fls : List (String × String)), pruneName name = true →
      renderWalk P fs relDir (FTree.mk (DirList.cons name sub ds) fls) =
        renderWalk P fs relDir (FTree.mk ds fls))
  ∧ (∀ (P : RenderParams) (fs : FS) (relDir : String) (ds : DirList)
      (fname c : String) (fls : List (String × String)),
      skipFile fname = true →
      renderWalk P fs relDir (FTree.mk ds ((fname, c) :: fls)) =
        renderWalk P fs relDir (FTree.mk ds fls))
  ∧ pruneName ".git" = true ∧ pruneName "__pycache__" = true
  ∧ skipFile "x.pyo" = true ∧ skipFile "x.pyc" = true
  ∧ skipFile "x.py.class" = true ∧ pruneName "pkg" = false
  ∧ ((handle idEnvC treeAtC ⟨[]⟩ "project" "proj" none ["py"] [] []).2 =
      Except.ok ()
    ∧ pathExists (handle idEnvC treeAtC ⟨[]⟩ "project" "proj" none ["py"]
        [] []).1.fs "/work/proj/app.py" = true
    ∧ pathExists (handle idEnvC treeAtC ⟨[]⟩ "project" "proj" none ["py"]
        [] []).1.fs "/work/proj/notes.txt" = true
    ∧ pathExists (handle idEnvC treeAtC ⟨[]⟩ "project" "proj" none ["py"]
        [] []).1.fs "/work/proj/pkg/mod.py" = true
    ∧ pathExists (handle idEnvC treeAtC ⟨[]⟩ "project" "proj" none ["py"]
        [] []).1.fs "/work/proj/.git" = false
    ∧ pathExists (handle idEnvC treeAtC ⟨[]⟩ "project" "proj" none ["py"]
        [] []).1.fs "/work/proj/.git/config" = false
    ∧ pathExists (handle idEnvC treeAtC ⟨[]⟩ "project" "proj" none ["py"]
        [] []).1.fs "/work/proj/x.pyc" = false) := by
  refine ⟨?_, ?_, by decide, by decide, by decide, by decide, by decide,
    by decide, by rfl, by rfl, by rfl, by rfl, by rfl, by rfl, by rfl⟩
  · intro P fs relDir name sub ds fls h
    exact renderWalk_prune P fs relDir name sub ds fls h
  · intro P fs relDir ds fname c fls h
    exact renderWalk_skip P fs relDir ds fname c fls h

/-- Witness for C10's pruning and skipping clauses at a concrete tree. -/
theorem walk_prunes_and_skips_witness :
    renderWalk paramsC ⟨[]⟩ ""
      (FTree.mk (DirList.cons ".git" (FTree.mk DirList.nil [("config", "c")])
        DirList.nil) [("a.py", "x")]) =
      renderWalk paramsC ⟨[]⟩ "" (FTree.mk DirList.nil [("a.py", "x")])
  ∧ renderWalk paramsC ⟨[]⟩ ""
      (FTree.mk DirList.nil [("x.pyc", "z"), ("a.py", "x")]) =
      renderWalk paramsC ⟨[]⟩ "" (FTree.mk DirList.nil [("a.py", "x")]) :=
  ⟨walk_prunes_and_skips.1 paramsC ⟨[]⟩ "" ".git"
      (FTree.mk DirList.nil [("config", "c")]) DirList.nil [("a.py", "x")]
      (by decide),
   walk_prunes_and_skips.2.1 paramsC ⟨[]⟩ "" DirList.nil "x.pyc" "z"
      [("a.py", "x")] (by decide)⟩

/-- C3: (a) when the target directory already exists, `handle` fails with
the already-exists `CommandError` and the filesystem is returned unchanged —
no files are created; (b) when a destination file visited by the walk
already exists, the walk reports an error of the same kind (in the model all
`CommandError`s are the single error side of the result); (c) the walk never
changes the entry of any pre-existing path, so the conflicting file is not
overwritten. -/
theorem target_conflicts_abort :
    (∀ (env : Env) (treeAt : Path → FTree) (fs0 : FS) (app target : String)
      (template : Option String) (extensions files : List String)
      (pluginDirs : List Path),
      pathExists fs0 (join2 env.cwd target) = true →
      handle env treeAt fs0 app target template extensions files pluginDirs =
        ({ fs := fs0, pathsToRemove := [], temps := [], counter := 0 },
          Except.error ("\x27" ++ join2 env.cwd target ++
            "\x27 already exists")))
  ∧ (∀ (P : RenderParams) (t : FTree) (fs : FS) (relDir : String) (p : Path),
      p ∈ destFiles P.topDir relDir t → pathExists fs p = true →
      ((renderWalk P fs relDir t).2).isSome = true)
  ∧ (∀ (P : RenderParams) (t : FTree) (fs : FS) (relDir : String) (p : Path)
      (en : Entry), findEntry fs p = some en →
      findEntry (renderWalk P fs relDir t).1 p = some en) := by
  refine ⟨?_, ?_, ?_⟩
  · intro env treeAt fs0 app target template extensions files pluginDirs h0
    exact handle_target_exists env treeAt fs0 app target template extensions
      files pluginDirs h0
  · intro P t fs relDir p hm hp
    exact renderWalk_conflict P p t fs relDir hm hp
  · intro P t fs relDir p en h
    exact renderWalk_preserves P p en t fs relDir h

/-- Witness for C3 at concrete runs: a pre-existing target aborts the
command with the filesystem unchanged, and a pre-existing destination file
makes the walk fail without the file's content changing. -/
theorem target_conflicts_abort_witness :
    handle idEnvC emptyTreeAtC fsTargetC "project" "proj" none ["py"] [] [] =
      ({ fs := fsTargetC, pathsToRemove := [], temps := [], counter := 0 },
        Except.error ("\x27" ++ join2 idEnvC.cwd "proj" ++
          "\x27 already exists"))
  ∧ ((renderWalk paramsC fsConflictC "" treC).2).isSome = true
  ∧ findEntry (renderWalk paramsC fsConflictC "" treC).1
      "/work/proj/notes.txt" = some (Entry.file "old") :=
  ⟨target_conflicts_abort.1 idEnvC emptyTreeAtC fsTargetC "project" "proj"
      none ["py"] [] [] (by rfl),
   target_conflicts_abort.2.1 paramsC treC fsConflictC ""
      "/work/proj/notes.txt" (by decide) (by rfl),
   target_conflicts_abort.2.2 paramsC treC fsConflictC ""
      "/work/proj/notes.txt" (Entry.file "old") (by rfl)⟩

/-- C1 counterexample: a run whose extraction fails returns the error while
the recorded extraction temp directory is still present on disk (and still
listed in `paths_to_remove`), so temporary artifacts are not deleted before
the error is reported. -/
theorem cleanup_on_failure_counterexample :
    (handle idEnvC emptyTreeAtC fsArchiveC "project" "proj"
      (some "/arch.tar.gz") ["py"] [] []).2 =
      Except.error ("couldn\x27t extract file /arch.tar.gz to " ++
        "/tmp/django_project_template_0_extract: bad")
  ∧ (handle idEnvC emptyTreeAtC fsArchiveC "project" "proj"
      (some "/arch.tar.gz") ["py"] [] []).1.pathsToRemove =
      [exTmpName "project" 0]
  ∧ pathExists (handle idEnvC emptyTreeAtC fsArchiveC "project" "proj"
      (some "/arch.tar.gz") ["py"] [] []).1.fs (exTmpName "project" 0) =
      true := by
  exact ⟨by rfl, by rfl, by rfl⟩

/-- C1 (amended): temporary artifacts are deleted only after a fully
successful render; when resolution or rendering fails, every recorded
removal path is still present in the filesystem when the error is returned
(no cleanup on the error path), and in a concrete successful run the
recorded extraction temp directory has been removed by the cleanup loop. -/
theorem cleanup_only_after_success :
    (∀ (env : Env) (treeAt : Path → FTree) (fs0 : FS) (app target : String)
      (template : Option String) (extensions files : List String)
      (pluginDirs : List Path) (e : String),
      (handle env treeAt fs0 app target template extensions files
        pluginDirs).2 = Except.error e →
      ∀ p ∈ (handle env treeAt fs0 app target template extensions files
        pluginDirs).1.pathsToRemove,
        pathExists (handle env treeAt fs0 app target template extensions
          files pluginDirs).1.fs p = true)
  ∧ ((handle okEnvC emptyTreeAtC fsArchiveC "project" "proj"
      (some "/arch.tar.gz") ["py"] [] []).2 = Except.ok ()
    ∧ (handle okEnvC emptyTreeAtC fsArchiveC "project" "proj"
        (some "/arch.tar.gz") ["py"] [] []).1.pathsToRemove =
        [exTmpName "project" 0]
    ∧ pathExists (handle okEnvC emptyTreeAtC fsArchiveC "project" "proj"
        (some "/arch.tar.gz") ["py"] [] []).1.fs (exTmpName "project" 0) =
        false) := by
  refine ⟨?_, by rfl, by rfl, by rfl⟩
  intro env treeAt fs0 app target template extensions files pluginDirs e he
  exact handle_error_keeps_records_aux env treeAt fs0 app target template
    extensions files pluginDirs e he

/-- Witness for C1's amended theorem at the concrete failing run. -/
theorem cleanup_only_after_success_witness :
    pathExists (handle idEnvC emptyTreeAtC fsArchiveC "project" "proj"
      (some "/arch.tar.gz") ["py"] [] []).1.fs (exTmpName "project" 0) =
      true :=
  cleanup_only_after_success.1 idEnvC emptyTreeAtC fsArchiveC "project"
    "proj" (some "/arch.tar.gz") ["py"] [] []
    ("couldn\x27t extract file /arch.tar.gz to " ++
      "/tmp/django_project_template_0_extract: bad") (by rfl)
    (exTmpName "project" 0) (by decide)

end Mason
